import Mathlib

/-
Verification of the nexus-hq billing and licensing core.

The development shallowly embeds the core state transitions of
portal_server.py (seller wallets, license activations) and hq_server.py
(clients, sales, subscription invoices).  Money and timestamps are modelled
as rationals; Python rounding to two decimals is modelled as round half to
even, which is what Python round performs on the exact values involved.
SQLite tables become Lean lists of records; the HTTP and authentication
plumbing around the core operations is excluded, as in the specification.
-/

namespace Portal

/-- A row of the wallets table of portal_server.py.  The id and user_id
columns identify the wallet and are implicit here: every operation below
acts on the single wallet already looked up by the caller. -/
structure Wallet where
  balance : ℚ
  pending_balance : ℚ
  total_earned : ℚ
  total_withdrawn : ℚ
  payout_email : Option String
  payout_method : String
  deriving Repr, DecidableEq

/-- A row of the wallet_transactions table (wallet_id implicit). -/
structure WalletTx where
  type : String
  amount : ℚ
  description : String
  order_id : Option String
  status : String
  deriving Repr, DecidableEq

/-- The wallet together with its transaction log, in insertion order. -/
structure WalletState where
  wallet : Wallet
  txs : List WalletTx
  deriving Repr, DecidableEq

/-- The wallet created by the register endpoint: INSERT INTO wallets
(user_id, payout_email) VALUES (?, ?), all other columns taking their
schema defaults (balance 0, pending 0, totals 0, method paypal). -/
def initWallet (email : Option String) : WalletState :=
  { wallet :=
      { balance := 0, pending_balance := 0, total_earned := 0,
        total_withdrawn := 0, payout_email := email,
        payout_method := "paypal" },
    txs := [] }

inductive WithdrawResult where
  | ok (new_balance : ℚ)
  | invalidAmount
  | insufficientBalance
  deriving Repr, DecidableEq

/-- request_withdrawal of portal_server.py (lines 454 to 500): rejects a
non-positive amount, rejects amount above balance, otherwise deducts the
amount from balance and appends a withdrawal transaction of the negated
amount with status pending.  No other wallet column is written. -/
def request_withdrawal (st : WalletState) (amount : ℚ) :
    WithdrawResult × WalletState :=
  if amount ≤ 0 then (WithdrawResult.invalidAmount, st)
  else if st.wallet.balance < amount then
    (WithdrawResult.insufficientBalance, st)
  else
    let new_balance := st.wallet.balance - amount
    (WithdrawResult.ok new_balance,
     { wallet := { st.wallet with balance := new_balance },
       txs := st.txs ++
         [{ type := "withdrawal", amount := -amount,
            description := "Withdrawal request", order_id := none,
            status := "pending" }] })

inductive CreditResult where
  | ok (new_balance : ℚ)
  | invalidRequest
  deriving Repr, DecidableEq

/-- credit_wallet of portal_server.py (lines 502 to 555): rejects a
non-positive amount, otherwise adds the amount to balance and total_earned
and appends a credit transaction of the amount (status defaulting to
completed in the schema). -/
def credit_wallet (st : WalletState) (amount : ℚ) (order_id : Option String)
    (description : String) : CreditResult × WalletState :=
  if amount ≤ 0 then (CreditResult.invalidRequest, st)
  else
    let new_balance := st.wallet.balance + amount
    let new_total := st.wallet.total_earned + amount
    let w := { st.wallet with balance := new_balance, total_earned := new_total }
    (CreditResult.ok new_balance,
     { wallet := w,
       txs := st.txs ++
         [{ type := "credit", amount := amount,
            description := description, order_id := order_id,
            status := "completed" }] })

/-- One wallet operation of the portal: an admin credit or a withdrawal
request, with the arguments the HTTP layer passes through. -/
inductive WalletOp where
  | credit (amount : ℚ) (order_id : Option String) (description : String)
  | withdraw (amount : ℚ)
  deriving Repr, DecidableEq

/-- Apply one wallet operation, keeping the resulting state. -/
def walletStep (st : WalletState) : WalletOp → WalletState
  | WalletOp.credit a oid d => (credit_wallet st a oid d).2
  | WalletOp.withdraw a => (request_withdrawal st a).2

/-- The wallet state after a sequence of operations on a fresh wallet. -/
def runWallet (email : Option String) (ops : List WalletOp) : WalletState :=
  ops.foldl walletStep (initWallet email)

/-- A row of the clients table of portal_server.py: one activation per
(license, machine) pair.  The license_id column is implicit: the state
below is the list of rows of one license.  The table carries the
constraint UNIQUE(license_id, machine_id). -/
structure Activation where
  machine_id : String
  machine_name : String
  ip_address : String
  version : String
  last_seen : ℚ
  first_seen : ℚ
  deriving Repr, DecidableEq

inductive ValidateResult where
  | ok (activations_used : ℕ) (max_activations : ℕ)
  | activationLimitReached (max_activations : ℕ)
  deriving Repr, DecidableEq

/-- validate_license of portal_server.py (lines 283 to 341), after the
require_license decorator has resolved a valid, unexpired license (that
lookup is the excluded authentication plumbing).  The function counts the
activation rows of the license, looks for a row with this machine_id,
fails when the machine is new and the count has reached max_activations,
updates the existing row in place otherwise, or inserts a new row.  Under
the UNIQUE(license_id, machine_id) constraint the update by row id is the
update of the unique row carrying this machine_id. -/
def validate_license (max_activations : ℕ) (cs : List Activation)
    (machine_id machine_name ip version : String) (now : ℚ) :
    ValidateResult × List Activation :=
  let activations := cs.length
  match cs.find? (fun c => c.machine_id == machine_id) with
  | some _ =>
      (ValidateResult.ok activations max_activations,
       cs.map (fun c =>
         if c.machine_id == machine_id then
           { c with machine_name := machine_name, ip_address := ip,
                    version := version, last_seen := now }
         else c))
  | none =>
      if max_activations ≤ activations then
        (ValidateResult.activationLimitReached max_activations, cs)
      else
        (ValidateResult.ok (activations + 1) max_activations,
         cs ++ [{ machine_id := machine_id, machine_name := machine_name,
                  ip_address := ip, version := version, last_seen := now,
                  first_seen := now }])

/-- The arguments of one validation call for a fixed license. -/
structure ValidateCall where
  machine_id : String
  machine_name : String
  ip : String
  version : String
  now : ℚ
  deriving Repr, DecidableEq

/-- Apply one validation call, keeping the resulting activation table. -/
def validateStep (max_activations : ℕ) (cs : List Activation)
    (c : ValidateCall) : List Activation :=
  (validate_license max_activations cs c.machine_id c.machine_name c.ip
    c.version c.now).2

/-- The activation table of a license after a sequence of validation
calls, starting from the empty table a fresh license has. -/
def runValidations (max_activations : ℕ) (calls : List ValidateCall) :
    List Activation :=
  calls.foldl (validateStep max_activations) []

end Portal

namespace HQ

/-- The price and commission of one subscription tier (the display name of
the tier plays no role in the core and is omitted). -/
structure TierInfo where
  price : ℚ
  commission : ℚ
  deriving Repr, DecidableEq

/-- The starter entry of the TIERS table of hq_server.py. -/
def starterTier : TierInfo := { price := 29, commission := 8 }

/-- The TIERS table of hq_server.py (lines 52 to 57), as the partial map
from tier name to price and commission. -/
def TIERS (tier : String) : Option TierInfo :=
  if tier == "starter" then some starterTier
  else if tier == "professional" then some { price := 79, commission := 6 }
  else if tier == "enterprise" then some { price := 199, commission := 4 }
  else if tier == "founders" then some { price := 0, commission := 5 }
  else none

/-- get_commission_rate of hq_server.py: the commission of the tier, the
starter commission when the tier is unknown. -/
def get_commission_rate (tier : String) : ℚ :=
  ((TIERS tier).getD starterTier).commission

/-- get_monthly_fee of hq_server.py: the price of the tier, the starter
price when the tier is unknown. -/
def get_monthly_fee (tier : String) : ℚ :=
  ((TIERS tier).getD starterTier).price

/-- Rounding to the nearest integer with ties to even, the rounding Python
round performs on the exact decimal values that arise here. -/
def pyRoundInt (x : ℚ) : ℤ :=
  if x - ⌊x⌋ < 1 / 2 then ⌊x⌋
  else if (1 / 2 : ℚ) < x - ⌊x⌋ then ⌊x⌋ + 1
  else if ⌊x⌋ % 2 = 0 then ⌊x⌋ else ⌊x⌋ + 1

/-- Python round(x, 2): round 100 x to the nearest integer, ties to even,
and divide back. -/
def round2 (x : ℚ) : ℚ := (pyRoundInt (100 * x) : ℚ) / 100

/-- A row of the clients table of hq_server.py. -/
structure Client where
  id : String
  name : String
  email : String
  api_key : String
  subscription_tier : String
  commission_rate : ℚ
  monthly_fee : ℚ
  status : String
  created_at : ℚ
  last_seen : ℚ
  location : String
  contact_phone : String
  notes : String
  next_billing_date : Option ℚ
  deriving Repr, DecidableEq

/-- A row of the sales table of hq_server.py. -/
structure Sale where
  id : String
  client_id : String
  deck_name : String
  format : String
  card_count : ℤ
  sale_value : ℚ
  nexus_fee : ℚ
  client_keeps : ℚ
  sold_at : ℚ
  cards_json : String
  deriving Repr, DecidableEq

/-- A row of the subscription_invoices table of hq_server.py (the unused
stripe_invoice_id column is omitted). -/
structure Invoice where
  id : String
  client_id : String
  tier : String
  amount : ℚ
  period_start : ℚ
  period_end : ℚ
  status : String
  paid_at : Option ℚ
  payment_method : Option String
  created_at : ℚ
  deriving Repr, DecidableEq

/-- The three tables of the HQ database the claims are about. -/
structure HQState where
  clients : List Client
  sales : List Sale
  invoices : List Invoice
  deriving Repr, DecidableEq

/-- The empty HQ database. -/
def emptyHQ : HQState := { clients := [], sales := [], invoices := [] }

/-- Timestamps are rationals measured in days, so a 30 day period is the
constant 30 (ISO timestamps of equal format compare chronologically). -/
def thirtyDays : ℚ := 30

inductive RegisterResult where
  | ok (client_id api_key tier : String) (commission monthly_fee : ℚ)
  | integrityError
  deriving Repr, DecidableEq

/-- register_client of hq_server.py (lines 204 to 236).  The generated
uuid id and api key are passed in by the caller; the sqlite IntegrityError
branch fires when the id, email or api key collides with an existing row
(the unique constraints of the table).  Note the tier argument is stored
as given, while commission and fee fall back to the starter values when
the tier is not in the TIERS table. -/
def register_client (st : HQState) (client_id api_key name email tier
    location phone notes : String) (now : ℚ) : RegisterResult × HQState :=
  let commission := get_commission_rate tier
  let monthly_fee := get_monthly_fee tier
  if st.clients.any (fun c =>
      c.id == client_id || c.email == email || c.api_key == api_key) then
    (RegisterResult.integrityError, st)
  else
    (RegisterResult.ok client_id api_key tier commission monthly_fee,
     { st with clients := st.clients ++
        [{ id := client_id, name := name, email := email, api_key := api_key,
           subscription_tier := tier, commission_rate := commission,
           monthly_fee := monthly_fee, status := "active", created_at := now,
           last_seen := now, location := location, contact_phone := phone,
           notes := notes, next_billing_date := none }] })

/-- The receipt record_sale returns. -/
structure SaleReceipt where
  sale_id : String
  sale_value : ℚ
  nexus_fee : ℚ
  client_keeps : ℚ
  commission_rate : ℚ
  deriving Repr, DecidableEq

/-- record_sale of hq_server.py (lines 273 to 305): reads the commission
rate of the client, falling back silently to 8.0 when the client row is
missing, computes fee and retained amount with rounding to two decimals,
and appends the sale row unconditionally. -/
def record_sale (st : HQState) (sale_id client_id deck_name fmt : String)
    (card_count : ℤ) (sale_value : ℚ) (cards_json : String) (now : ℚ) :
    SaleReceipt × HQState :=
  let commission_rate :=
    match st.clients.find? (fun c => c.id == client_id) with
    | some c => c.commission_rate
    | none => 8
  let nexus_fee := round2 (sale_value * (commission_rate / 100))
  let client_keeps := round2 (sale_value - nexus_fee)
  ({ sale_id := sale_id, sale_value := sale_value, nexus_fee := nexus_fee,
     client_keeps := client_keeps, commission_rate := commission_rate },
   { st with sales := st.sales ++
      [{ id := sale_id, client_id := client_id, deck_name := deck_name,
         format := fmt, card_count := card_count, sale_value := sale_value,
         nexus_fee := nexus_fee, client_keeps := client_keeps,
         sold_at := now, cards_json := cards_json }] })

inductive ChangeTierResult where
  | ok (new_tier : String) (commission_rate monthly_fee : ℚ)
  | invalidTier
  deriving Repr, DecidableEq

/-- change_client_tier of hq_server.py (lines 452 to 475): rejects a tier
name outside the TIERS table, otherwise updates tier, commission rate and
monthly fee of the client row together (an UPDATE by client id). -/
def change_client_tier (st : HQState) (client_id new_tier : String) :
    ChangeTierResult × HQState :=
  match TIERS new_tier with
  | none => (ChangeTierResult.invalidTier, st)
  | some t =>
      (ChangeTierResult.ok new_tier t.commission t.price,
       { st with clients := st.clients.map (fun c =>
          if c.id == client_id then
            { c with subscription_tier := new_tier,
                     commission_rate := t.commission,
                     monthly_fee := t.price }
          else c) })

/-- create_invoice of hq_server.py (lines 323 to 364): returns none when
the client row is missing; otherwise the invoice is over the override tier
when one is given (the client tier otherwise), the amount is the TIERS
price with starter fallback, the period runs from now to now plus 30 days,
the invoice row is inserted with status pending, and next_billing_date of
the client is advanced to the period end. -/
def create_invoice (st : HQState) (invoice_id client_id : String)
    (tier_override : Option String) (now : ℚ) :
    Option Invoice × HQState :=
  match st.clients.find? (fun c => c.id == client_id) with
  | none => (none, st)
  | some row =>
      let tier := tier_override.getD row.subscription_tier
      let amount := ((TIERS tier).getD starterTier).price
      let period_end := now + thirtyDays
      let inv : Invoice :=
        { id := invoice_id, client_id := client_id, tier := tier,
          amount := amount, period_start := now, period_end := period_end,
          status := "pending", paid_at := none, payment_method := none,
          created_at := now }
      (some inv,
       { st with
          clients := st.clients.map (fun c =>
            if c.id == client_id then
              { c with next_billing_date := some period_end }
            else c),
          invoices := st.invoices ++ [inv] })

/-- mark_invoice_paid of hq_server.py (lines 366 to 379): an UPDATE of the
row with this invoice id (a no-op when none exists), always returning
true. -/
def mark_invoice_paid (st : HQState) (invoice_id payment_method : String)
    (now : ℚ) : Bool × HQState :=
  (true,
   { st with invoices := st.invoices.map (fun i =>
      if i.id == invoice_id then
        { i with status := "paid", paid_at := some now,
                 payment_method := some payment_method }
      else i) })

/-- The due-clients query of generate_monthly_invoices (hq_server.py lines
477 to 500): ids of active clients with positive monthly fee whose next
billing date is null or not after the given date. -/
def due_clients (clients : List Client) (today : ℚ) : List String :=
  (clients.filter (fun c =>
    c.status == "active" && decide (0 < c.monthly_fee) &&
      (match c.next_billing_date with
       | none => true
       | some d => decide (d ≤ today)))).map Client.id

end HQ

namespace Portal

/-- The wallet balance equals the signed sum of the logged amounts. -/
def BalanceMatchesLog (st : WalletState) : Prop :=
  st.wallet.balance = (st.txs.map WalletTx.amount).sum

lemma walletStep_balanceMatchesLog (st : WalletState) (op : WalletOp)
    (h : BalanceMatchesLog st) : BalanceMatchesLog (walletStep st op) := by
  unfold BalanceMatchesLog at *
  cases op with
  | credit a oid d =>
      by_cases ha : a ≤ 0
      · simpa [walletStep, credit_wallet, ha] using h
      · simp [walletStep, credit_wallet, ha, h]
  | withdraw a =>
      by_cases ha : a ≤ 0
      · simpa [walletStep, request_withdrawal, ha] using h
      · by_cases hb : st.wallet.balance < a
        · simpa [walletStep, request_withdrawal, ha, hb] using h
        · simp [walletStep, request_withdrawal, ha, hb]
          rw [h]
          ring

lemma walletStep_balance_nonneg (st : WalletState) (op : WalletOp)
    (h : 0 ≤ st.wallet.balance) : 0 ≤ (walletStep st op).wallet.balance := by
  cases op with
  | credit a oid d =>
      by_cases ha : a ≤ 0
      · simpa [walletStep, credit_wallet, ha] using h
      · simp [walletStep, credit_wallet, ha]
        have : (0 : ℚ) < a := lt_of_not_ge ha
        linarith
  | withdraw a =>
      by_cases ha : a ≤ 0
      · simpa [walletStep, request_withdrawal, ha] using h
      · by_cases hb : st.wallet.balance < a
        · simpa [walletStep, request_withdrawal, ha, hb] using h
        · simp [walletStep, request_withdrawal, ha, hb]
          have : a ≤ st.wallet.balance := le_of_not_lt hb
          linarith

lemma runWallet_inv {P : WalletState → Prop}
    (hstep : ∀ st op, P st → P (walletStep st op)) (ops : List WalletOp) :
    ∀ st : WalletState, P st → P (ops.foldl walletStep st) := by
  induction ops with
  | nil => intro st h; exact h
  | cons op rest ih => intro st h; exact ih _ (hstep st op h)

/-- Claim C10: starting from the freshly registered wallet (balance zero,
empty log), after any sequence of credit and withdrawal operations the
balance equals the signed sum of the amounts of the logged transactions
(each successful credit logs the amount it adds, each successful
withdrawal logs the negation of the amount it deducts). -/
theorem wallet_balance_eq_log_sum (email : Option String)
    (ops : List WalletOp) :
    (runWallet email ops).wallet.balance
      = ((runWallet email ops).txs.map WalletTx.amount).sum := by
  have h0 : BalanceMatchesLog (initWallet email) := by
    simp [BalanceMatchesLog, initWallet]
  exact runWallet_inv walletStep_balanceMatchesLog ops _ h0

/-- Claim C3: every wallet state reachable from a fresh wallet by credits
and withdrawals has a non-negative balance; a withdrawal request above the
balance fails with insufficient balance and leaves the whole wallet state
(balance, other fields, transaction log) unchanged; and a credit of a
non-positive amount is rejected, also leaving the state unchanged. -/
theorem wallet_balance_nonneg_and_guards (email : Option String)
    (ops : List WalletOp) :
    0 ≤ (runWallet email ops).wallet.balance
    ∧ (∀ amount : ℚ, (runWallet email ops).wallet.balance < amount →
        request_withdrawal (runWallet email ops) amount
          = (WithdrawResult.insufficientBalance, runWallet email ops))
    ∧ (∀ (amount : ℚ) (oid : Option String) (d : String), amount ≤ 0 →
        credit_wallet (runWallet email ops) amount oid d
          = (CreditResult.invalidRequest, runWallet email ops)) := by
  have hnn : 0 ≤ (runWallet email ops).wallet.balance := by
    have h0 : (0 : ℚ) ≤ (initWallet email).wallet.balance := by
      simp [initWallet]
    exact runWallet_inv walletStep_balance_nonneg ops _ h0
  refine ⟨hnn, ?_, ?_⟩
  · intro amount hlt
    have hpos : ¬ amount ≤ 0 := by
      intro hle
      exact absurd (lt_of_le_of_lt hnn hlt) (not_lt.mpr hle)
    simp [request_withdrawal, hpos, hlt]
  · intro amount oid d hle
    simp [credit_wallet, hle]

/-- Witness for claim C3 at a concrete run: credit 50, then a withdrawal
of 51 is rejected unchanged and a credit of 0 is rejected unchanged. -/
theorem wallet_balance_nonneg_and_guards_witness :
    request_withdrawal
        (runWallet none [WalletOp.credit 50 none ("Sale credit")]) 51
      = (WithdrawResult.insufficientBalance,
         runWallet none [WalletOp.credit 50 none ("Sale credit")])
    ∧ credit_wallet
        (runWallet none [WalletOp.credit 50 none ("Sale credit")]) 0 none ("x")
      = (CreditResult.invalidRequest,
         runWallet none [WalletOp.credit 50 none ("Sale credit")]) := by
  have h := wallet_balance_nonneg_and_guards none
    [WalletOp.credit 50 none ("Sale credit")]
  exact ⟨h.2.1 51
      (by norm_num [runWallet, walletStep, credit_wallet, initWallet]),
    h.2.2 0 none ("x") (by norm_num)⟩

/-- The machine ids of the activation rows, in row order. -/
def machineIds (cs : List Activation) : List String :=
  cs.map Activation.machine_id

lemma machineIds_map_preserve (f : Activation → Activation)
    (hf : ∀ a, (f a).machine_id = a.machine_id) (cs : List Activation) :
    machineIds (cs.map f) = machineIds cs := by
  unfold machineIds
  induction cs with
  | nil => rfl
  | cons a t ih => simp [hf a, ih]

/-- The invariant the activation table of a license keeps: machine ids are
pairwise distinct (the UNIQUE constraint) and there are at most
max_activations rows. -/
def ActInvariant (max_activations : ℕ) (cs : List Activation) : Prop :=
  (machineIds cs).Nodup ∧ cs.length ≤ max_activations

lemma validateStep_inv (max_activations : ℕ) (cs : List Activation)
    (c : ValidateCall) (h : ActInvariant max_activations cs) :
    ActInvariant max_activations (validateStep max_activations cs c) := by
  obtain ⟨hnd, hlen⟩ := h
  unfold validateStep validate_license
  cases hfind : cs.find? (fun a => a.machine_id == c.machine_id) with
  | some a =>
      simp only [hfind]
      refine ⟨?_, by simpa using hlen⟩
      rw [machineIds_map_preserve]
      · exact hnd
      · intro x
        by_cases hx : x.machine_id == c.machine_id <;> simp [hx]
  | none =>
      by_cases hge : max_activations ≤ cs.length
      · exact ⟨by simpa [hfind, hge] using hnd, by simpa [hfind, hge] using hlen⟩
      · have hfresh : c.machine_id ∉ machineIds cs := by
          intro hmem
          obtain ⟨a, hmem', hid⟩ := List.mem_map.mp hmem
          have := List.find?_eq_none.mp hfind a hmem'
          simp [hid] at this
        refine ⟨?_, ?_⟩
        · simp only [hfind, if_neg hge]
          have hone : (machineIds cs ++ [c.machine_id]).Nodup := by
            refine List.Nodup.append hnd (List.nodup_singleton _) ?_
            intro x hx hx'
            rw [List.mem_singleton] at hx'
            subst hx'
            exact hfresh hx
          simpa [machineIds] using hone
        · simp only [hfind, if_neg hge]
          simp
          omega

/-- Claim C1: after any sequence of validation calls on a fresh license,
the number of distinct activated machine ids never exceeds
max_activations; a further call for a machine id with no activation row
fails with the activation limit error and changes nothing once the row
count has reached the limit; and a call for an already activated machine
id succeeds with the current count, performs no limit check, and leaves
the machine id list (hence the activation count) unchanged. -/
theorem activation_limit_invariant (max_activations : ℕ)
    (calls : List ValidateCall) (c : ValidateCall) :
    (machineIds (runValidations max_activations calls)).toFinset.card
        ≤ max_activations
    ∧ ((∀ a ∈ runValidations max_activations calls,
          a.machine_id ≠ c.machine_id) →
        max_activations ≤ (runValidations max_activations calls).length →
        validate_license max_activations (runValidations max_activations
            calls) c.machine_id c.machine_name c.ip c.version c.now
          = (ValidateResult.activationLimitReached max_activations,
             runValidations max_activations calls))
    ∧ ((∃ a ∈ runValidations max_activations calls,
          a.machine_id = c.machine_id) →
        (validate_license max_activations (runValidations max_activations
            calls) c.machine_id c.machine_name c.ip c.version c.now).1
          = ValidateResult.ok
              (runValidations max_activations calls).length max_activations
        ∧ machineIds (validate_license max_activations
            (runValidations max_activations calls) c.machine_id
            c.machine_name c.ip c.version c.now).2
          = machineIds (runValidations max_activations calls)) := by
  have hinv : ActInvariant max_activations
      (runValidations max_activations calls) := by
    unfold runValidations
    have h0 : ActInvariant max_activations [] := by
      constructor <;> simp [machineIds]
    revert h0
    generalize ([] : List Activation) = st
    intro h0
    induction calls generalizing st with
    | nil => exact h0
    | cons hd tl ih => exact ih _ (validateStep_inv _ _ _ h0)
  set cs := runValidations max_activations calls with hcs
  refine ⟨?_, ?_, ?_⟩
  · calc (machineIds cs).toFinset.card ≤ (machineIds cs).length :=
          List.toFinset_card_le _
      _ = cs.length := by simp [machineIds]
      _ ≤ max_activations := hinv.2
  · intro hfresh hge
    have hfind : cs.find? (fun a => a.machine_id == c.machine_id) = none :=
      List.find?_eq_none.mpr (fun a ha => by simp [hfresh a ha])
    simp [validate_license, hfind, hge]
  · intro hex
    have hsome : (cs.find? (fun a => a.machine_id == c.machine_id)).isSome := by
      rw [List.find?_isSome]
      obtain ⟨a, ha, hid⟩ := hex
      exact ⟨a, ha, by simp [hid]⟩
    obtain ⟨a, hfind⟩ := Option.isSome_iff_exists.mp hsome
    constructor
    · simp [validate_license, hfind]
    · simp only [validate_license, hfind]
      exact machineIds_map_preserve _ (fun a => by
        by_cases hid : a.machine_id == c.machine_id <;> simp [hid]) cs

/-- Witness for claim C1: with max_activations 1 and one activation for
machine m1, validating a second machine m2 fails with the limit error and
changes nothing, while revalidating m1 succeeds with count 1. -/
theorem activation_limit_invariant_witness :
    validate_license 1 (runValidations 1 [⟨"m1", "n1", "ip1", "v1", 0⟩])
        "m2" "n2" "ip2" "v2" 1
      = (ValidateResult.activationLimitReached 1,
         runValidations 1 [⟨"m1", "n1", "ip1", "v1", 0⟩])
    ∧ (validate_license 1 (runValidations 1 [⟨"m1", "n1", "ip1", "v1", 0⟩])
        "m1" "n3" "ip3" "v3" 2).1
      = ValidateResult.ok 1 1 := by
  have hrun : runValidations 1 [⟨"m1", "n1", "ip1", "v1", 0⟩]
      = [⟨"m1", "n1", "ip1", "v1", 0, 0⟩] := by
    simp [runValidations, validateStep, validate_license]
  have h2 := (activation_limit_invariant 1 [⟨"m1", "n1", "ip1", "v1", 0⟩]
    ⟨"m2", "n2", "ip2", "v2", 1⟩).2.1
  have h3 := (activation_limit_invariant 1 [⟨"m1", "n1", "ip1", "v1", 0⟩]
    ⟨"m1", "n3", "ip3", "v3", 2⟩).2.2
  rw [hrun] at h2 h3 ⊢
  refine ⟨h2 ?_ ?_, ?_⟩
  · intro a ha
    rw [List.mem_singleton] at ha
    subst ha
    simp
  · simp
  · have h3' := h3 ⟨⟨"m1", "n1", "ip1", "v1", 0, 0⟩, by simp, rfl⟩
    simpa using h3'.1

/-- Claim C2 (demonstrating a code bug): a successful withdrawal of 30
from a wallet holding 50 returns the new balance 20, logs a pending
withdrawal of -30, but leaves total_withdrawn at 0: request_withdrawal
never writes the total_withdrawn column. -/
theorem request_withdrawal_omits_total_withdrawn :
    (request_withdrawal
        (runWallet none [WalletOp.credit 50 none ("Sale credit")]) 30).1
      = WithdrawResult.ok 20
    ∧ ((request_withdrawal
        (runWallet none [WalletOp.credit 50 none ("Sale credit")]) 30).2
          ).wallet.balance = 20
    ∧ ((request_withdrawal
        (runWallet none [WalletOp.credit 50 none ("Sale credit")]) 30).2
          ).wallet.total_withdrawn = 0
    ∧ ((request_withdrawal
        (runWallet none [WalletOp.credit 50 none ("Sale credit")]) 30).2
          ).txs.map WalletTx.amount = [50, -30]
    ∧ ((request_withdrawal
        (runWallet none [WalletOp.credit 50 none ("Sale credit")]) 30).2
          ).txs.map WalletTx.status = ["completed", "pending"] := by
  norm_num [request_withdrawal, runWallet, walletStep, credit_wallet,
    initWallet]

end Portal

namespace HQ

lemma pyRoundInt_intCast (n : ℤ) : pyRoundInt (n : ℚ) = n := by
  unfold pyRoundInt
  rw [Int.floor_intCast]
  norm_num

/-- Rounding to two decimals is the identity on whole-cent amounts. -/
lemma round2_cents (k : ℤ) : round2 ((k : ℚ) / 100) = (k : ℚ) / 100 := by
  unfold round2
  have h : (100 : ℚ) * ((k : ℚ) / 100) = (k : ℚ) := by
    field_simp
  rw [h, pyRoundInt_intCast]

/-- Rounding the difference of a whole-cent amount and a rounded value and
adding the rounded value back recovers the whole-cent amount. -/
lemma round2_add_cents_cancel (k : ℤ) (x : ℚ) :
    round2 x + round2 ((k : ℚ) / 100 - round2 x) = (k : ℚ) / 100 := by
  have hm : round2 x = ((pyRoundInt (100 * x) : ℤ) : ℚ) / 100 := rfl
  rw [hm]
  have hdiff : (k : ℚ) / 100 - ((pyRoundInt (100 * x) : ℤ) : ℚ) / 100
      = ((k - pyRoundInt (100 * x) : ℤ) : ℚ) / 100 := by
    push_cast
    ring
  rw [hdiff, round2_cents]
  push_cast
  ring

/-- Claim C4 (amended): for a sale whose gross value is a whole number of
cents in the range 0 to 10000000, the receipt and the persisted sale row
carry fee = round2 of gross times rate over 100 and retained = round2 of
gross minus fee, and fee plus retained recovers the gross value exactly.
For gross values of finer granularity the identity can fail, see the
counterexample. -/
theorem sale_fee_retained_split_cents (st : HQState)
    (sid cid dk fm cj : String) (cc : ℤ) (g now : ℚ) (k : ℤ)
    (hk : g = (k : ℚ) / 100) (h0 : 0 ≤ g) (h1 : g ≤ 10000000) :
    (record_sale st sid cid dk fm cc g cj now).1.nexus_fee
      = round2 (g * ((record_sale st sid cid dk fm cc g cj now
          ).1.commission_rate / 100))
    ∧ (record_sale st sid cid dk fm cc g cj now).1.client_keeps
      = round2 (g - (record_sale st sid cid dk fm cc g cj now).1.nexus_fee)
    ∧ (record_sale st sid cid dk fm cc g cj now).1.nexus_fee
        + (record_sale st sid cid dk fm cc g cj now).1.client_keeps = g
    ∧ (record_sale st sid cid dk fm cc g cj now).2.sales.map Sale.nexus_fee
      = st.sales.map Sale.nexus_fee
        ++ [(record_sale st sid cid dk fm cc g cj now).1.nexus_fee]
    ∧ (record_sale st sid cid dk fm cc g cj now).2.sales.map
          Sale.client_keeps
      = st.sales.map Sale.client_keeps
        ++ [(record_sale st sid cid dk fm cc g cj now).1.client_keeps] := by
  refine ⟨rfl, rfl, ?_, by simp [record_sale], by simp [record_sale]⟩
  show round2 (g * (_ / 100)) + round2 (g - round2 (g * (_ / 100))) = g
  subst hk
  exact round2_add_cents_cancel k _

/-- Witness for claim C4 at gross 100 (10000 cents): fee plus retained is
exactly 100. -/
theorem sale_fee_retained_split_cents_witness :
    (record_sale emptyHQ ("S1") ("C1") ("deck") ("fmt") 0 100 ("") 0
        ).1.nexus_fee
      + (record_sale emptyHQ ("S1") ("C1") ("deck") ("fmt") 0 100 ("") 0
        ).1.client_keeps = 100 :=
  (sale_fee_retained_split_cents emptyHQ ("S1") ("C1") ("deck") ("fmt")
    ("") 0 100 0 10000 (by norm_num) (by norm_num) (by norm_num)).2.2.1

/-- Counterexample to claim C4 as stated: a sale of gross 0.135 (27/200,
inside the range 0 to 10000000) under the 8 percent starter rate gets
fee 0.01 and retained 0.12, whose sum 0.13 differs from the gross value
rounded to two decimals, 0.14 (and from the gross value itself). -/
theorem sale_rounding_counterexample :
    (record_sale emptyHQ ("S1") ("C1") ("deck") ("fmt") 0 (27 / 200)
        ("") 0).1.commission_rate = 8
    ∧ (record_sale emptyHQ ("S1") ("C1") ("deck") ("fmt") 0 (27 / 200)
        ("") 0).1.nexus_fee = 1 / 100
    ∧ (record_sale emptyHQ ("S1") ("C1") ("deck") ("fmt") 0 (27 / 200)
        ("") 0).1.client_keeps = 12 / 100
    ∧ round2 (27 / 200) = 14 / 100
    ∧ round2 ((record_sale emptyHQ ("S1") ("C1") ("deck") ("fmt") 0
        (27 / 200) ("") 0).1.nexus_fee
          + (record_sale emptyHQ ("S1") ("C1") ("deck") ("fmt") 0
        (27 / 200) ("") 0).1.client_keeps) ≠ round2 (27 / 200) := by
  have hfee : (record_sale emptyHQ ("S1") ("C1") ("deck") ("fmt") 0
      (27 / 200) ("") 0).1.nexus_fee = 1 / 100 := by
    show round2 ((27 / 200 : ℚ) * (8 / 100)) = 1 / 100
    unfold round2 pyRoundInt
    norm_num
  have hkeeps : (record_sale emptyHQ ("S1") ("C1") ("deck") ("fmt") 0
      (27 / 200) ("") 0).1.client_keeps = 12 / 100 := by
    show round2 ((27 / 200 : ℚ) - round2 ((27 / 200 : ℚ) * (8 / 100)))
        = 12 / 100
    unfold round2 pyRoundInt
    norm_num
  have hg : round2 ((27 : ℚ) / 200) = 14 / 100 := by
    unfold round2 pyRoundInt
    norm_num
  refine ⟨rfl, hfee, hkeeps, hg, ?_⟩
  rw [hfee, hkeeps, hg]
  norm_num [round2, pyRoundInt]

end HQ

namespace HQ

/-- Counterexample to claim C5 as stated: recording a sale under a client
id that names no client does not fail with a client-not-found error; it
silently uses the default 8.0 commission rate and persists the sale row
anyway. -/
theorem record_sale_unknown_client_cex :
    (record_sale emptyHQ ("S1") ("CX") ("deck") ("fmt") 0 100 ("") 0
        ).1.commission_rate = 8
    ∧ (record_sale emptyHQ ("S1") ("CX") ("deck") ("fmt") 0 100 ("") 0
        ).2.sales.length = 1 := by
  constructor
  · rfl
  · simp [record_sale, emptyHQ]

/-- Claim C5 (amended): a recordSale call whose client id names no
existing client does not fail: it silently falls back to the default 8.0
commission rate and still persists the sale; the stored client rate is
used exactly when the client row exists (there is no separate null-rate
case, every write of the clients table sets the rate). -/
theorem record_sale_unknown_client_fallback (st : HQState)
    (sid cid dk fm cj : String) (cc : ℤ) (g now : ℚ) :
    (st.clients.find? (fun c => c.id == cid) = none →
      (record_sale st sid cid dk fm cc g cj now).1.commission_rate = 8
      ∧ (record_sale st sid cid dk fm cc g cj now).2.sales.length
          = st.sales.length + 1)
    ∧ (∀ c, st.clients.find? (fun c0 => c0.id == cid) = some c →
        (record_sale st sid cid dk fm cc g cj now).1.commission_rate
          = c.commission_rate) := by
  constructor
  · intro h
    constructor
    · simp [record_sale, h]
    · simp [record_sale]
  · intro c h
    simp [record_sale, h]

/-- The state holding the one client Acme, registered on the starter
tier, used to instantiate theorems at concrete inputs. -/
def acmeState : HQState :=
  (register_client emptyHQ ("C1") ("k1") ("Acme") ("a") ("starter")
    ("") ("") ("") 0).2

/-- The client row acmeState holds. -/
def acmeClient : Client :=
  ⟨"C1", "Acme", "a", "k1", "starter", 8, 29, "active", 0, 0, "", "", "",
   none⟩

lemma acmeState_clients : acmeState.clients = [acmeClient] := rfl

/-- Witness for claim C5: on the empty database the fallback branch fires
with rate 8 and persists the sale; on a database holding the professional
client C1 the stored rate 6 is used. -/
theorem record_sale_unknown_client_fallback_witness :
    ((record_sale emptyHQ ("S2") ("CX") ("d") ("f") 0 50 ("") 0
        ).1.commission_rate = 8
      ∧ (record_sale emptyHQ ("S2") ("CX") ("d") ("f") 0 50 ("") 0
        ).2.sales.length = emptyHQ.sales.length + 1)
    ∧ (record_sale (register_client emptyHQ ("C2") ("k2") ("Best") ("b")
        ("professional") ("") ("") ("") 0).2 ("S3") ("C2") ("d") ("f") 0
        50 ("") 0).1.commission_rate = 6 := by
  constructor
  · exact (record_sale_unknown_client_fallback emptyHQ ("S2") ("CX")
      ("d") ("f") ("") 0 50 0).1 rfl
  · exact (record_sale_unknown_client_fallback
      (register_client emptyHQ ("C2") ("k2") ("Best") ("b")
        ("professional") ("") ("") ("") 0).2 ("S3") ("C2") ("d") ("f")
      ("") 0 50 0).2
      ⟨"C2", "Best", "b", "k2", "professional", 6, 79, "active", 0, 0,
       "", "", "", none⟩ rfl

/-- Claim C6: a tier change performed after a sale was recorded leaves the
persisted sales (so the fee and retained amount of the earlier sale)
unchanged, and the fee of a sale is computed from the commission rate the
client row holds at the moment of the sale. -/
theorem sale_immutable_under_tier_change (st : HQState)
    (sid cid dk fm cj : String) (cc : ℤ) (g now : ℚ)
    (cid2 tier2 : String) :
    (change_client_tier (record_sale st sid cid dk fm cc g cj now).2
        cid2 tier2).2.sales
      = (record_sale st sid cid dk fm cc g cj now).2.sales
    ∧ (∀ c, st.clients.find? (fun c0 => c0.id == cid) = some c →
        (record_sale st sid cid dk fm cc g cj now).1.nexus_fee
          = round2 (g * (c.commission_rate / 100))
        ∧ (record_sale st sid cid dk fm cc g cj now).1.client_keeps
          = round2 (g - round2 (g * (c.commission_rate / 100)))) := by
  constructor
  · cases h : TIERS tier2 <;> simp [change_client_tier, h]
  · intro c h
    constructor <;> simp [record_sale, h]

/-- Witness for claim C6: Acme sells at gross 100 under the starter rate,
then moves to the enterprise tier; the persisted sales are unchanged and
the fee was computed from the rate at the moment of sale. -/
theorem sale_immutable_under_tier_change_witness :
    (change_client_tier (record_sale acmeState ("S1") ("C1") ("d") ("f")
        0 100 ("") 0).2 ("C1") ("enterprise")).2.sales
      = (record_sale acmeState ("S1") ("C1") ("d") ("f") 0 100 ("") 0
        ).2.sales
    ∧ (record_sale acmeState ("S1") ("C1") ("d") ("f") 0 100 ("") 0
        ).1.nexus_fee
      = round2 (100 * (acmeClient.commission_rate / 100)) := by
  have h := sale_immutable_under_tier_change acmeState ("S1") ("C1")
    ("d") ("f") ("") 0 100 0 ("C1") ("enterprise")
  exact ⟨h.1, (h.2 acmeClient rfl).1⟩

end HQ

namespace HQ

/-- One operation of the HQ core, with the arguments the HTTP layer
passes through. -/
inductive HQOp where
  | register (client_id api_key name email tier location phone notes :
      String) (now : ℚ)
  | changeTier (client_id new_tier : String)
  | recordSale (sale_id client_id deck_name fmt : String)
      (card_count : ℤ) (sale_value : ℚ) (cards_json : String) (now : ℚ)
  | createInvoice (invoice_id client_id : String)
      (tier_override : Option String) (now : ℚ)
  | markPaid (invoice_id payment_method : String) (now : ℚ)
  deriving Repr, DecidableEq

/-- Apply one HQ operation, keeping the resulting database. -/
def hqStep (st : HQState) : HQOp → HQState
  | HQOp.register cid key nm em tier loc ph nt now =>
      (register_client st cid key nm em tier loc ph nt now).2
  | HQOp.changeTier cid t => (change_client_tier st cid t).2
  | HQOp.recordSale sid cid dk fm cc g cj now =>
      (record_sale st sid cid dk fm cc g cj now).2
  | HQOp.createInvoice iid cid tov now =>
      (create_invoice st iid cid tov now).2
  | HQOp.markPaid iid pm now => (mark_invoice_paid st iid pm now).2

/-- The HQ database after a sequence of operations on the empty one. -/
def runHQ (ops : List HQOp) : HQState := ops.foldl hqStep emptyHQ

/-- The client row carries exactly the tier-table values of its tier. -/
def TierConsistent (c : Client) : Prop :=
  ∃ t, TIERS c.subscription_tier = some t
    ∧ c.commission_rate = t.commission ∧ c.monthly_fee = t.price

/-- The operation is not a registration under a tier name outside the
tier table. -/
def registersKnownTier : HQOp → Prop
  | HQOp.register _ _ _ _ tier _ _ _ _ => (TIERS tier).isSome
  | _ => True

lemma hqStep_tierConsistent (st : HQState) (op : HQOp)
    (hop : registersKnownTier op)
    (h : ∀ c ∈ st.clients, TierConsistent c) :
    ∀ c ∈ (hqStep st op).clients, TierConsistent c := by
  cases op with
  | register cid key nm em tier loc ph nt now =>
      intro c hc
      simp only [hqStep, register_client] at hc
      split at hc
      · exact h c hc
      · simp only [List.mem_append, List.mem_singleton] at hc
        cases hc with
        | inl h1 => exact h c h1
        | inr h2 =>
            subst h2
            obtain ⟨t, ht⟩ := Option.isSome_iff_exists.mp hop
            exact ⟨t, by simpa using ht,
              by simp [get_commission_rate, ht],
              by simp [get_monthly_fee, ht]⟩
  | changeTier cid t =>
      intro c hc
      simp only [hqStep, change_client_tier] at hc
      cases htier : TIERS t with
      | none => rw [htier] at hc; exact h c hc
      | some t' =>
          rw [htier] at hc
          simp only [List.mem_map] at hc
          obtain ⟨c0, hc0, rfl⟩ := hc
          by_cases hid : c0.id == cid
          · simp only [if_pos hid]
            exact ⟨t', htier, rfl, rfl⟩
          · simp only [if_neg hid]
            exact h c0 hc0
  | recordSale sid cid dk fm cc g cj now =>
      intro c hc
      exact h c hc
  | createInvoice iid cid tov now =>
      intro c hc
      simp only [hqStep, create_invoice] at hc
      split at hc
      · exact h c hc
      · simp only [List.mem_map] at hc
        obtain ⟨c0, hc0, rfl⟩ := hc
        obtain ⟨t, ht, h1, h2⟩ := h c0 hc0
        by_cases hid : c0.id == cid
        · simp only [if_pos hid]
          exact ⟨t, ht, h1, h2⟩
        · simp only [if_neg hid]
          exact ⟨t, ht, h1, h2⟩
  | markPaid iid pm now =>
      intro c hc
      exact h c hc

/-- Counterexample to claim C7 as stated: registering a client under the
unknown tier name gold succeeds and stores that tier name together with
the starter rate and fee, so the stored rate and fee match no tier-table
entry of the stored tier. -/
theorem register_unknown_tier_cex :
    (register_client emptyHQ ("C1") ("k1") ("Acme") ("a") ("gold") ("")
        ("") ("") 0).2.clients.map Client.subscription_tier = ["gold"]
    ∧ TIERS ("gold") = none
    ∧ (register_client emptyHQ ("C1") ("k1") ("Acme") ("a") ("gold") ("")
        ("") ("") 0).2.clients.map Client.commission_rate = [8]
    ∧ (register_client emptyHQ ("C1") ("k1") ("Acme") ("a") ("gold") ("")
        ("") ("") 0).2.clients.map Client.monthly_fee = [29] := by
  refine ⟨rfl, rfl, rfl, rfl⟩

/-- Claim C7 (amended): over any operation sequence whose registrations
all use tier names present in the tier table, every reachable client row
carries exactly the tier-table commission and price of its current tier
(registration sets all three together, a tier change updates all three
together, and no other operation touches them); and changeTier rejects a
tier name outside the table, leaving the state unchanged.  Registration
under an unknown tier name is accepted by the code and breaks the
invariant, see the counterexample. -/
theorem tier_table_invariant (ops : List HQOp)
    (hops : ∀ op ∈ ops, registersKnownTier op) :
    (∀ c ∈ (runHQ ops).clients, TierConsistent c)
    ∧ (∀ (st : HQState) (cid t : String), TIERS t = none →
        change_client_tier st cid t
          = (ChangeTierResult.invalidTier, st)) := by
  constructor
  · unfold runHQ
    have h0 : ∀ c ∈ emptyHQ.clients, TierConsistent c := by
      simp [emptyHQ]
    have hgen : ∀ (l : List HQOp) (st : HQState),
        (∀ op ∈ l, registersKnownTier op) →
        (∀ c ∈ st.clients, TierConsistent c) →
        ∀ c ∈ (l.foldl hqStep st).clients, TierConsistent c := by
      intro l
      induction l with
      | nil => intro st _ hst c hc; exact hst c hc
      | cons op rest ih =>
          intro st hl hst
          exact ih _ (fun o ho => hl o (List.mem_cons_of_mem _ ho))
            (hqStep_tierConsistent st op (hl op (List.mem_cons_self _ _))
              hst)
    exact hgen ops emptyHQ hops h0
  · intro st cid t ht
    simp [change_client_tier, ht]

/-- Witness for claim C7: a starter registration followed by a change to
the enterprise tier keeps every client row tier-consistent, and changing
to the unknown tier gold is rejected unchanged. -/
theorem tier_table_invariant_witness :
    TierConsistent ⟨"C1", "Acme", "a", "k1", "enterprise", 4, 199,
      "active", 0, 0, "", "", "", none⟩
    ∧ change_client_tier acmeState ("C1") ("gold")
      = (ChangeTierResult.invalidTier, acmeState) := by
  have hops : ∀ op ∈ [HQOp.register ("C1") ("k1") ("Acme") ("a")
      ("starter") ("") ("") ("") 0, HQOp.changeTier ("C1")
      ("enterprise")], registersKnownTier op := by
    intro op hop
    simp only [List.mem_cons, List.not_mem_nil, or_false] at hop
    cases hop with
    | inl h1 => subst h1; exact rfl
    | inr h2 => subst h2; trivial
  have h := tier_table_invariant [HQOp.register ("C1") ("k1") ("Acme")
    ("a") ("starter") ("") ("") ("") 0, HQOp.changeTier ("C1")
    ("enterprise")] hops
  exact ⟨h.1 _ (List.mem_singleton.mpr rfl),
    h.2 acmeState ("C1") ("gold") rfl⟩

end HQ

namespace HQ

/-- Membership in the due-clients scan, spelled out: exactly the ids of
active clients with positive monthly fee whose next billing date is null
or at most the scan date. -/
lemma mem_due_clients (clients : List Client) (today : ℚ) (x : String) :
    x ∈ due_clients clients today ↔
      ∃ c ∈ clients, c.id = x ∧ c.status = "active" ∧ 0 < c.monthly_fee
        ∧ (c.next_billing_date = none
           ∨ ∃ d, c.next_billing_date = some d ∧ d ≤ today) := by
  unfold due_clients
  simp only [List.mem_map, List.mem_filter]
  constructor
  · rintro ⟨c, ⟨hc, hp⟩, rfl⟩
    simp only [Bool.and_eq_true, beq_iff_eq, decide_eq_true_eq] at hp
    obtain ⟨⟨h1, h2⟩, h3⟩ := hp
    refine ⟨c, hc, rfl, h1, h2, ?_⟩
    cases hnbd : c.next_billing_date with
    | none => exact Or.inl rfl
    | some d =>
        rw [hnbd] at h3
        exact Or.inr ⟨d, rfl, by simpa using h3⟩
  · rintro ⟨c, hc, rfl, h1, h2, h3⟩
    refine ⟨c, ⟨hc, ?_⟩, rfl⟩
    simp only [Bool.and_eq_true, beq_iff_eq, decide_eq_true_eq]
    refine ⟨⟨h1, h2⟩, ?_⟩
    cases h3 with
    | inl hnone => rw [hnone]
    | inr hsome =>
        obtain ⟨d, hd, hle⟩ := hsome
        rw [hd]
        simpa using hle

/-- Claim C8: a successful createInvoice call returns an invoice whose
period ends 30 days after creation, advances next_billing_date of the
billed client to that period end, the due-clients scan returns exactly
the active clients with positive monthly fee whose next billing date is
null or at most the scan date, and therefore the billed client is not
due again at any scan date before the period end. -/
theorem invoice_advances_billing_date (st : HQState) (iid cid : String)
    (tov : Option String) (now as_of : ℚ) (inv : Invoice) (st' : HQState)
    (hcall : create_invoice st iid cid tov now = (some inv, st')) :
    inv.period_end = now + thirtyDays
    ∧ (∀ c ∈ st'.clients, c.id = cid →
        c.next_billing_date = some (now + thirtyDays))
    ∧ (∀ x : String, x ∈ due_clients st'.clients as_of ↔
        ∃ c ∈ st'.clients, c.id = x ∧ c.status = "active"
          ∧ 0 < c.monthly_fee
          ∧ (c.next_billing_date = none
             ∨ ∃ d, c.next_billing_date = some d ∧ d ≤ as_of))
    ∧ (as_of < now + thirtyDays → cid ∉ due_clients st'.clients as_of) := by
  cases hrow : st.clients.find? (fun c => c.id == cid) with
  | none =>
      rw [create_invoice, hrow] at hcall
      simp at hcall
  | some row =>
      rw [create_invoice, hrow] at hcall
      simp only [Prod.mk.injEq, Option.some.injEq] at hcall
      obtain ⟨hinv, hst⟩ := hcall
      have hnbd : ∀ c ∈ st'.clients, c.id = cid →
          c.next_billing_date = some (now + thirtyDays) := by
        intro c hc hid
        rw [← hst] at hc
        simp only [List.mem_map] at hc
        obtain ⟨c0, hc0, rfl⟩ := hc
        by_cases h0 : c0.id == cid
        · simp only [if_pos h0]
        · rw [if_neg h0] at hid ⊢
          exact absurd hid (by simpa using h0)
      refine ⟨by rw [← hinv], hnbd, fun x => mem_due_clients _ _ x, ?_⟩
      intro hlt hmem
      obtain ⟨c, hc, hid, _, _, hdue⟩ := (mem_due_clients _ _ _).mp hmem
      have := hnbd c hc hid
      cases hdue with
      | inl hnone => rw [hnone] at this; exact Option.noConfusion this
      | inr hsome =>
          obtain ⟨d, hd, hle⟩ := hsome
          rw [hd] at this
          have hd30 : d = now + thirtyDays := Option.some.inj this
          rw [hd30] at hle
          exact absurd hle (not_le.mpr hlt)

/-- The invoice created for Acme at time 0. -/
def acmeInvoice : Invoice :=
  ⟨"I1", "C1", "starter", 29, 0, 0 + thirtyDays, "pending", none, none, 0⟩

/-- The database after billing Acme at time 0. -/
def acmeBilled : HQState :=
  ⟨[{ acmeClient with next_billing_date := some (0 + thirtyDays) }], [],
   [acmeInvoice]⟩

/-- Witness for claim C8: billing Acme at time 0 yields the period end
30, and Acme is not in the due scan at day 29. -/
theorem invoice_advances_billing_date_witness :
    acmeInvoice.period_end = 0 + thirtyDays
    ∧ (29 : ℚ) < 0 + thirtyDays
    ∧ ("C1") ∉ due_clients acmeBilled.clients 29 := by
  have h := invoice_advances_billing_date acmeState ("I1") ("C1") none 0
    29 acmeInvoice acmeBilled rfl
  exact ⟨h.1, by norm_num [thirtyDays],
    h.2.2.2 (by norm_num [thirtyDays])⟩

/-- An invoice row used to instantiate theorems at concrete inputs. -/
def loneInvoice : Invoice :=
  ⟨"INV-1", "C1", "starter", 29, 0, 30, "pending", none, none, 0⟩

/-- A database holding only the invoice loneInvoice. -/
def loneState : HQState := ⟨[], [], [loneInvoice]⟩

/-- Counterexample to claim C9 as stated: marking a nonexistent invoice id
paid is indeed a no-op on the stored state, but the call returns true,
not false. -/
theorem mark_invoice_paid_unknown_returns_true :
    mark_invoice_paid loneState ("INV-X") ("manual") 5
      = (true, loneState) := by
  rfl

/-- The paid copy of an invoice row, as the UPDATE of mark_invoice_paid
writes it. -/
def paidCopy (i : Invoice) (now : ℚ) (pm : String) : Invoice :=
  { i with status := "paid", paid_at := some now, payment_method := some pm }

lemma list_map_self {α : Type} (l : List α) (f : α → α)
    (h : ∀ a ∈ l, f a = a) : l.map f = l := by
  induction l with
  | nil => rfl
  | cons a t ih =>
      simp only [List.map_cons, h a (by simp)]
      rw [ih (fun b hb => h b (by simp [hb]))]

/-- Claim C9 (amended): mark_invoice_paid always returns true; on an id
naming no stored invoice it changes nothing (but still returns true, not
false, see the counterexample); on an existing invoice it stores the paid
copy with the given payment method, leaving every other invoice in
place. -/
theorem mark_invoice_paid_noop_behavior (st : HQState) (iid pm : String)
    (now : ℚ) :
    (mark_invoice_paid st iid pm now).1 = true
    ∧ ((∀ i ∈ st.invoices, i.id ≠ iid) →
        mark_invoice_paid st iid pm now = (true, st))
    ∧ (∀ i ∈ st.invoices, i.id = iid →
        paidCopy i now pm ∈ (mark_invoice_paid st iid pm now).2.invoices)
    ∧ (∀ i ∈ st.invoices, i.id ≠ iid →
        i ∈ (mark_invoice_paid st iid pm now).2.invoices) := by
  refine ⟨rfl, ?_, ?_, ?_⟩
  · intro h
    have hmap : st.invoices.map (fun i =>
        if i.id == iid then { i with status := "paid", paid_at := some now, payment_method := some pm } else i)
      = st.invoices := by
      refine list_map_self _ _ ?_
      intro i hi
      simp [h i hi]
    unfold mark_invoice_paid
    rw [hmap]
  · intro i hi hid
    unfold mark_invoice_paid paidCopy
    simp only [List.mem_map]
    exact ⟨i, hi, by simp [hid]⟩
  · intro i hi hid
    unfold mark_invoice_paid
    simp only [List.mem_map]
    exact ⟨i, hi, by simp [hid]⟩

/-- Witness for claim C9: on the database holding only invoice INV-1,
marking INV-X is a no-op returning true, and marking INV-1 stores its
paid copy. -/
theorem mark_invoice_paid_noop_behavior_witness :
    (mark_invoice_paid loneState ("INV-X") ("manual") 5).1 = true
    ∧ mark_invoice_paid loneState ("INV-X") ("manual") 5
      = (true, loneState)
    ∧ paidCopy loneInvoice 5 ("manual")
      ∈ (mark_invoice_paid loneState ("INV-1") ("manual") 5).2.invoices := by
  have h1 := mark_invoice_paid_noop_behavior loneState ("INV-X")
    ("manual") 5
  have h2 := mark_invoice_paid_noop_behavior loneState ("INV-1")
    ("manual") 5
  refine ⟨h1.1, h1.2.1 ?_, h2.2.2.1 loneInvoice (by simp [loneState]) rfl⟩
  intro i hi
  simp only [loneState, List.mem_singleton] at hi
  subst hi
  simp [loneInvoice]

end HQ
